import Mathlib

/-!
Shallow embedding of `src/stage/graph/utils/KokkosKernels_SimpleUtils.hpp`
(namespace `KokkosKernels::Experimental::Util`).

The file defines five data-parallel primitives, each a per-index step
functor handed to Kokkos' `parallel_scan` / `parallel_reduce` drivers over
`RangePolicy(0, num_elements)`.  Kokkos guarantees as-if-sequential
semantics for `parallel_scan` (the result equals a strictly sequential
left-to-right execution of the step with `final = true`), and for
`parallel_reduce` the result is the left fold of the step over the index
range.  We therefore embed each driver as the sequential execution of its
functor over indices `0, 1, ..., num_elements - 1`.

Views (`Kokkos::View`) are embedded as Lean lists; index `ii` of the view
is position `ii` of the list.

A crucial detail of the source: in both scan functors the running
accumulator `update` is declared `size_t` — a 64-bit unsigned machine
integer — while the array elements have the view's value type
`idx = view_t::value_type`.  The statement `update += val` therefore
performs C++ mixed-type arithmetic whose result is converted back to
`size_t` (mod 2^64), and the store `array_sum(ii) = idx(update)` converts
the `size_t` accumulator back to the value type.  We make these two
conversions explicit via `ViewOps`.
-/

/-- Modulus of `size_t` arithmetic (64-bit unsigned). -/
def SIZE_T_MOD : Nat := 2 ^ 64

/-- Conversions the scan functors perform between the view's value type
`T` and the `size_t` accumulator.
`store u` embeds the C++ store `array_sum(ii) = idx (update)`: conversion
of the `size_t` value `u` to the value type.
`accum u v` embeds the C++ statement `update += val` with `update : size_t`
and `val : idx`: the mixed-type addition, converted back to a `size_t`
value (hence always `< 2^64`). -/
structure ViewOps (T : Type) where
  store : Nat → T
  accum : Nat → T → Nat

/-- The instantiation at `idx = size_t` (the library's index/offset views):
values are natural numbers below `2 ^ 64`, the store conversion is the
identity, and `update += val` is addition mod `2 ^ 64`. -/
def sizeTOps : ViewOps Nat where
  store := fun u => u
  accum := fun u v => (u + v) % SIZE_T_MOD

/-- Sequential (final-pass) execution of the functor
`ExclusiveParallelPrefixSum::operator()(ii, update, final)` over indices
`0, ..., n-1` of the list, threading the `size_t` accumulator `update`.
Per index the functor does: `idx val = array_sum(ii);` then (on the final
pass) `array_sum(ii) = idx (update);` and finally `update += val;` — i.e.
it stores the accumulator as it was BEFORE adding the element read at this
index.  The n-versus-list arities track `RangePolicy(0, n)` against the
view's extent; callers guarantee `n ≤ length` (out-of-range access is UB
in the source), making the `[]` branch unreachable. -/
def ExclusiveParallelPrefixSum (ops : ViewOps T) : Nat → List T → Nat → List T
  | 0, l, _ => l
  | _ + 1, [], _ => []
  | n + 1, a :: rest, update =>
      ops.store update :: ExclusiveParallelPrefixSum ops n rest (ops.accum update a)

/-- Sequential (final-pass) execution of
`InclusiveParallelPrefixSum::operator()(ii, update, final)` over indices
`0, ..., n-1`: per index, `update += array_sum(ii);` then (final pass)
`array_sum(ii) = idx (update);` — the accumulator is advanced BEFORE the
store. -/
def InclusiveParallelPrefixSum (ops : ViewOps T) : Nat → List T → Nat → List T
  | 0, l, _ => l
  | _ + 1, [], _ => []
  | n + 1, a :: rest, update =>
      let u := ops.accum update a
      ops.store u :: InclusiveParallelPrefixSum ops n rest u

/-- Driver `kk_exclusive_parallel_prefix_sum(num_elements, arr)`:
`parallel_scan` of `ExclusiveParallelPrefixSum` over
`RangePolicy(0, num_elements)`; the `size_t` accumulator starts
value-initialized at 0. -/
def kk_exclusive_parallel_prefix_sum (ops : ViewOps T) (num_elements : Nat)
    (arr : List T) : List T :=
  ExclusiveParallelPrefixSum ops num_elements arr 0

/-- Driver `kk_inclusive_parallel_prefix_sum(num_elements, arr)`:
`parallel_scan` of `InclusiveParallelPrefixSum` over
`RangePolicy(0, num_elements)`, accumulator starting at 0. -/
def kk_inclusive_parallel_prefix_sum (ops : ViewOps T) (num_elements : Nat)
    (arr : List T) : List T :=
  InclusiveParallelPrefixSum ops num_elements arr 0

example : kk_exclusive_parallel_prefix_sum sizeTOps 4 [1, 2, 3, 4] = [0, 1, 3, 6] := by decide
example : kk_inclusive_parallel_prefix_sum sizeTOps 4 [1, 2, 3, 4] = [1, 3, 6, 10] := by decide

/-- C++ conversion of a non-negative rational (standing for an exactly
represented `double`) to `size_t`: truncation toward zero, i.e. for
`q ≥ 0` the floor `num / den` in natural division.  (For negative values
or values `≥ 2^64` the C++ conversion is undefined behavior; the model is
only applied to in-range values.) -/
def doubleToSize (q : ℚ) : Nat := q.num.toNat / q.den

/-- The instantiation of the scan functors at `idx = double`, with the
`double` values restricted to exactly representable rationals so the
arithmetic stays exact.  `array_sum(ii) = idx (update)` converts the
`size_t` accumulator to `double` (exact for values below `2^53`, the only
ones we use); `update += val` adds in `double` and converts the result
back to `size_t` by truncation. -/
def doubleOps : ViewOps ℚ where
  store := fun u => (u : ℚ)
  accum := fun u v => doubleToSize ((u : ℚ) + v) % SIZE_T_MOD

/-- Modelled from the spec: "Running accumulator: an ephemeral scalar of
the array's value type, threaded through a scan in index order" — the
exclusive scan as the spec describes it, with the accumulator living in
the value type `T` itself (combine operator `add`), for comparison with
`ExclusiveParallelPrefixSum`, whose accumulator is a `size_t`. -/
def exclusiveScanValueAcc (add : T → T → T) : Nat → List T → T → List T
  | 0, l, _ => l
  | _ + 1, [], _ => []
  | n + 1, a :: rest, update =>
      update :: exclusiveScanValueAcc add n rest (add update a)

/-- Modelled from the spec: the inclusive scan with the running accumulator
in the value type `T`, for comparison with `InclusiveParallelPrefixSum`. -/
def inclusiveScanValueAcc (add : T → T → T) : Nat → List T → T → List T
  | 0, l, _ => l
  | _ + 1, [], _ => []
  | n + 1, a :: rest, update =>
      let u := add update a
      u :: inclusiveScanValueAcc add n rest u

/-- Addition of two `size_t` values (`update += val` at `idx = size_t`). -/
def sizeTAdd (u v : Nat) : Nat := (u + v) % SIZE_T_MOD

/-- Driver `kk_reduce_view(num_elements, arr, reduction)`: `parallel_reduce`
of `ReductionFunctor`, whose step is `update += array_sum(ii)` with
`update` of the view's value type, over `RangePolicy(0, num_elements)`;
the accumulator starts value-initialized (`zero`) and the result is
written to the output reference, which we model as the return value.
The value type's `+` is passed as `add`. -/
def kk_reduce_view (add : T → T → T) (zero : T) (num_elements : Nat)
    (arr : List T) : T :=
  (arr.take num_elements).foldl add zero

/-- Driver `kk_reduce_diff_view(num_elements, smaller, bigger, reduction)`:
`parallel_reduce` of `DiffReductionFunctor(begins := smaller, ends := bigger)`,
whose step is `update += (array_ends(ii) - array_begins(ii))` with `update`
of the view's non-const value type. `sub` is the value type's binary `-`. -/
def kk_reduce_diff_view (add : T → T → T) (sub : T → T → T) (zero : T)
    (num_elements : Nat) (begins ends : List T) : T :=
  (List.zipWith sub (ends.take num_elements) (begins.take num_elements)).foldl add zero

example : kk_reduce_view sizeTAdd 0 4 [1, 2, 3, 4] = 10 := by decide
example : kk_reduce_diff_view (fun a b => a + b) (fun a b => a - b) (0 : ℤ) 3
    [0, 2, 5] [2, 5, 9] = 9 := by decide

/-- Step of `IsIdenticalFunctor::operator()(i, is_equal)` at value type
`int` (an exact arithmetic type whose `ArithTraits` magnitude is the
absolute value): `val_diff = KAT::abs(view1(i) - view2(i)); if (val_diff > eps)
is_equal += 1;`.  The `size_t` counter increments at most once per index,
so it never wraps and is modelled as a plain natural number. -/
def IsIdenticalFunctor (eps : ℤ) (view1 view2 : List ℤ) (i : Nat)
    (is_equal : Nat) : Nat :=
  let val_diff := |view1.getD i 0 - view2.getD i 0|
  if val_diff > eps then is_equal + 1 else is_equal

/-- The `parallel_reduce` of `IsIdenticalFunctor` over
`RangePolicy(0, num_elements)` starting from `issame = 0`. -/
def isIdenticalReduce (eps : ℤ) (view1 view2 : List ℤ) (num_elements : Nat) : Nat :=
  (List.range num_elements).foldl (fun acc i => IsIdenticalFunctor eps view1 view2 i acc) 0

/-- Driver `kk_is_identical_view(view1, view2, eps)`: if the extents
(`dimension_0()`) differ, return `false` immediately; otherwise reduce
`IsIdenticalFunctor` over `RangePolicy(0, num_elements)` into `issame`,
fence (no effect on the value), and return `false` iff `issame > 0`. -/
def kk_is_identical_view (view1 view2 : List ℤ) (eps : ℤ) : Bool :=
  if view1.length ≠ view2.length then false
  else
    let num_elements := view1.length
    let issame := isIdenticalReduce eps view1 view2 num_elements
    if issame > 0 then false else true

/-- The driver of `kk_is_identical_view` again, additionally returning the
list of indices the issued parallel reduction hands to the functor — empty
exactly when no per-index step of the reduction functor is executed. -/
def kk_is_identical_view_trace (view1 view2 : List ℤ) (eps : ℤ) : Bool × List Nat :=
  if view1.length ≠ view2.length then (false, [])
  else
    let num_elements := view1.length
    let issame := isIdenticalReduce eps view1 view2 num_elements
    (if issame > 0 then false else true, List.range num_elements)

example : kk_is_identical_view [1, 2, 3] [1, 3, 3] 1 = true := by decide
example : kk_is_identical_view [1, 2, 3] [1, 3, 3] 0 = false := by decide
example : kk_is_identical_view [1, 2, 3] [1, 3] 5 = false := by decide

/-! ### Helper lemmas about the scans -/

lemma length_ExclusiveParallelPrefixSum {T : Type} (ops : ViewOps T) :
    ∀ (n : Nat) (l : List T) (u : Nat), n ≤ l.length →
      (ExclusiveParallelPrefixSum ops n l u).length = l.length := by
  intro n
  induction n with
  | zero => intro l u _; rfl
  | succ n ih =>
      intro l u hn
      cases l with
      | nil => simp at hn
      | cons a rest =>
          simp only [ExclusiveParallelPrefixSum, List.length_cons]
          rw [ih rest (ops.accum u a) (by simpa using hn)]

lemma length_InclusiveParallelPrefixSum {T : Type} (ops : ViewOps T) :
    ∀ (n : Nat) (l : List T) (u : Nat), n ≤ l.length →
      (InclusiveParallelPrefixSum ops n l u).length = l.length := by
  intro n
  induction n with
  | zero => intro l u _; rfl
  | succ n ih =>
      intro l u hn
      cases l with
      | nil => simp at hn
      | cons a rest =>
          simp only [InclusiveParallelPrefixSum, List.length_cons]
          rw [ih rest (ops.accum u a) (by simpa using hn)]

lemma getElem?_ExclusiveParallelPrefixSum {T : Type} (ops : ViewOps T) :
    ∀ (n : Nat) (l : List T) (u j : Nat), n ≤ l.length → n ≤ j →
      (ExclusiveParallelPrefixSum ops n l u)[j]? = l[j]? := by
  intro n
  induction n with
  | zero => intro l u j _ _; rfl
  | succ n ih =>
      intro l u j hn hj
      cases l with
      | nil => simp at hn
      | cons a rest =>
          cases j with
          | zero => omega
          | succ j =>
              simp only [ExclusiveParallelPrefixSum, List.getElem?_cons_succ]
              exact ih rest (ops.accum u a) j (by simpa using hn) (by omega)

lemma getElem?_InclusiveParallelPrefixSum {T : Type} (ops : ViewOps T) :
    ∀ (n : Nat) (l : List T) (u j : Nat), n ≤ l.length → n ≤ j →
      (InclusiveParallelPrefixSum ops n l u)[j]? = l[j]? := by
  intro n
  induction n with
  | zero => intro l u j _ _; rfl
  | succ n ih =>
      intro l u j hn hj
      cases l with
      | nil => simp at hn
      | cons a rest =>
          cases j with
          | zero => omega
          | succ j =>
              simp only [InclusiveParallelPrefixSum, List.getElem?_cons_succ]
              exact ih rest (ops.accum u a) j (by simpa using hn) (by omega)

/-- Closed form of the exclusive scan at the `size_t` instantiation, in the
absence of accumulator overflow: entry `i` is the accumulator's start value
plus the sum of the elements strictly before `i`. -/
lemma getD_ExclusiveParallelPrefixSum_sizeT :
    ∀ (l : List Nat) (u i : Nat), i < l.length → u + l.sum < SIZE_T_MOD →
      (ExclusiveParallelPrefixSum sizeTOps l.length l u).getD i 0 = u + (l.take i).sum := by
  intro l
  induction l with
  | nil => intro u i hi _; simp at hi
  | cons a rest ih =>
      intro u i hi hs
      have hsum : a + rest.sum = (a :: rest).sum := by simp
      have haccum : sizeTOps.accum u a = u + a := by
        show (u + a) % SIZE_T_MOD = u + a
        apply Nat.mod_eq_of_lt
        simp only [List.sum_cons] at hs
        omega
      cases i with
      | zero =>
          simp [ExclusiveParallelPrefixSum, sizeTOps]
      | succ i =>
          simp only [List.length_cons, ExclusiveParallelPrefixSum, List.getD_cons_succ,
            List.take_succ_cons, List.sum_cons, haccum]
          rw [ih (u + a) i (by simpa using hi) (by simp only [List.sum_cons] at hs; omega)]
          omega

/-- Closed form of the inclusive scan at the `size_t` instantiation without
accumulator overflow: entry `i` is the start value plus the sum of the
elements up to and including `i`. -/
lemma getD_InclusiveParallelPrefixSum_sizeT :
    ∀ (l : List Nat) (u i : Nat), i < l.length → u + l.sum < SIZE_T_MOD →
      (InclusiveParallelPrefixSum sizeTOps l.length l u).getD i 0 = u + (l.take (i + 1)).sum := by
  intro l
  induction l with
  | nil => intro u i hi _; simp at hi
  | cons a rest ih =>
      intro u i hi hs
      have haccum : sizeTOps.accum u a = u + a := by
        show (u + a) % SIZE_T_MOD = u + a
        apply Nat.mod_eq_of_lt
        simp only [List.sum_cons] at hs
        omega
      cases i with
      | zero =>
          simp only [List.length_cons, InclusiveParallelPrefixSum, List.getD_cons_zero, haccum]
          simp [sizeTOps]
      | succ i =>
          simp only [List.length_cons, InclusiveParallelPrefixSum, List.getD_cons_succ,
            List.take_succ_cons, List.sum_cons, haccum]
          rw [ih (u + a) i (by simpa using hi) (by simp only [List.sum_cons] at hs; omega)]
          omega

/-- At the `size_t` instantiation the scans' `size_t` accumulator coincides
with an accumulator of the value type, because the value type is `size_t`
itself. -/
lemma ExclusiveParallelPrefixSum_sizeT_eq_valueAcc :
    ∀ (n : Nat) (l : List Nat) (u : Nat),
      ExclusiveParallelPrefixSum sizeTOps n l u = exclusiveScanValueAcc sizeTAdd n l u := by
  intro n
  induction n with
  | zero => intro l u; rfl
  | succ n ih =>
      intro l u
      cases l with
      | nil => rfl
      | cons a rest =>
          simp only [ExclusiveParallelPrefixSum, exclusiveScanValueAcc, ih]
          rfl

lemma InclusiveParallelPrefixSum_sizeT_eq_valueAcc :
    ∀ (n : Nat) (l : List Nat) (u : Nat),
      InclusiveParallelPrefixSum sizeTOps n l u = inclusiveScanValueAcc sizeTAdd n l u := by
  intro n
  induction n with
  | zero => intro l u; rfl
  | succ n ih =>
      intro l u
      cases l with
      | nil => rfl
      | cons a rest =>
          simp only [InclusiveParallelPrefixSum, inclusiveScanValueAcc, ih]
          rfl

/-- Sum of a take at the successor index, phrased with `getD`. -/
lemma sum_take_succ_getD (l : List Nat) (i : Nat) (hi : i < l.length) :
    (l.take (i + 1)).sum = (l.take i).sum + l.getD i 0 := by
  rw [List.sum_take_succ l i hi, List.getD_eq_getElem l 0 hi]

/-- Left fold of `size_t` addition computes the sum mod `2 ^ 64`. -/
lemma foldl_sizeTAdd :
    ∀ (l : List Nat) (u : Nat), u < SIZE_T_MOD →
      l.foldl sizeTAdd u = (u + l.sum) % SIZE_T_MOD := by
  intro l
  induction l with
  | nil =>
      intro u hu
      simp [Nat.mod_eq_of_lt hu]
  | cons a rest ih =>
      intro u hu
      have h1 : sizeTAdd u a = (u + a) % SIZE_T_MOD := rfl
      simp only [List.foldl_cons, h1, List.sum_cons]
      rw [ih ((u + a) % SIZE_T_MOD) (Nat.mod_lt _ (by simp [SIZE_T_MOD]))]
      rw [Nat.mod_add_mod, Nat.add_assoc]

/-- Last entry of the inclusive scan at the `size_t` instantiation: the sum
of the whole list mod `2 ^ 64` (plus the start value). -/
lemma getD_last_InclusiveParallelPrefixSum_sizeT :
    ∀ (l : List Nat) (u : Nat), l ≠ [] →
      (InclusiveParallelPrefixSum sizeTOps l.length l u).getD (l.length - 1) 0
        = (u + l.sum) % SIZE_T_MOD := by
  intro l
  induction l with
  | nil => intro u h; exact absurd rfl h
  | cons a rest ih =>
      intro u _
      cases rest with
      | nil =>
          show sizeTOps.store (sizeTOps.accum u a) = (u + [a].sum) % SIZE_T_MOD
          simp [sizeTOps]
      | cons b rest' =>
          have hlen : (a :: b :: rest').length - 1 = (b :: rest').length - 1 + 1 := by
            simp
          rw [hlen]
          show (InclusiveParallelPrefixSum sizeTOps ((b :: rest').length) (b :: rest')
              (sizeTOps.accum u a)).getD ((b :: rest').length - 1) 0
            = (u + (a :: b :: rest').sum) % SIZE_T_MOD
          rw [ih (sizeTOps.accum u a) (by simp)]
          show ((u + a) % SIZE_T_MOD + (b :: rest').sum) % SIZE_T_MOD
            = (u + (a :: b :: rest').sum) % SIZE_T_MOD
          rw [Nat.mod_add_mod]
          simp [List.sum_cons, Nat.add_assoc]

/-! ### Claim theorems: scans -/

/-- C1: for every array A (at the library's `size_t` index instantiation,
with no accumulator overflow), the exclusive prefix sum overwrites A in
place so that the result keeps A's length, `A_new[0] = 0`, and every
`A_new[i]` is the sum of the original entries strictly before `i`. -/
theorem exclusive_scan_is_exclusive_sums (arr : List Nat)
    (hsum : arr.sum < SIZE_T_MOD) :
    (kk_exclusive_parallel_prefix_sum sizeTOps arr.length arr).length = arr.length
    ∧ (0 < arr.length →
        (kk_exclusive_parallel_prefix_sum sizeTOps arr.length arr).getD 0 0 = 0)
    ∧ ∀ i, i < arr.length →
        (kk_exclusive_parallel_prefix_sum sizeTOps arr.length arr).getD i 0
          = (arr.take i).sum := by
  have hmain : ∀ i, i < arr.length →
      (kk_exclusive_parallel_prefix_sum sizeTOps arr.length arr).getD i 0
        = (arr.take i).sum := by
    intro i hi
    have h := getD_ExclusiveParallelPrefixSum_sizeT arr 0 i hi (by simpa using hsum)
    simpa [kk_exclusive_parallel_prefix_sum] using h
  refine ⟨length_ExclusiveParallelPrefixSum sizeTOps arr.length arr 0 le_rfl, ?_, hmain⟩
  intro h0
  simpa using hmain 0 h0

theorem exclusive_scan_is_exclusive_sums_witness :
    (kk_exclusive_parallel_prefix_sum sizeTOps 4 [1, 2, 3, 4]).getD 3 0 = 6 := by
  have h := (exclusive_scan_is_exclusive_sums [1, 2, 3, 4] (by decide)).2.2 3 (by decide)
  exact h.trans (by decide)

/-- C2 counterexample: at the `double` instantiation (modelled with exact
rationals, here 3/2 which a double represents exactly), the scan does NOT
compute the prefix sums in the value type's own arithmetic: the `size_t`
accumulator truncates 3/2 to 1, whereas the value-type accumulator the
spec describes would produce 3/2. -/
theorem exclusive_scan_accum_not_value_type :
    kk_exclusive_parallel_prefix_sum doubleOps 2 [mkRat 3 2, mkRat 3 2]
      ≠ exclusiveScanValueAcc (fun a b => a + b) 2 [mkRat 3 2, mkRat 3 2] 0 := by
  have h1 : doubleOps.accum 0 (mkRat 3 2) = 1 := by
    show doubleToSize ((0 : ℚ) + mkRat 3 2) % SIZE_T_MOD = 1
    rw [zero_add]
    decide
  simp only [kk_exclusive_parallel_prefix_sum, ExclusiveParallelPrefixSum,
    exclusiveScanValueAcc, h1]
  intro h
  have h2 := List.head_eq_of_cons_eq (List.tail_eq_of_cons_eq h)
  rw [zero_add] at h2
  revert h2
  show doubleOps.store 1 = mkRat 3 2 → False
  decide

/-- C2 amended: the running accumulator is a `size_t`, with the element
value converted to `size_t` as it is accumulated and the accumulator cast
back to the value type when stored; for the library's `size_t`-valued
index arrays this coincides with an accumulator of the value type, so
those prefix sums are computed in the value type's own arithmetic. -/
theorem scan_size_t_accum_coincides_on_size_t (n : Nat) (arr : List Nat) :
    kk_exclusive_parallel_prefix_sum sizeTOps n arr
        = exclusiveScanValueAcc sizeTAdd n arr 0
    ∧ kk_inclusive_parallel_prefix_sum sizeTOps n arr
        = inclusiveScanValueAcc sizeTAdd n arr 0 :=
  ⟨ExclusiveParallelPrefixSum_sizeT_eq_valueAcc n arr 0,
   InclusiveParallelPrefixSum_sizeT_eq_valueAcc n arr 0⟩

/-- C3: at every position, the inclusive prefix sum equals the exclusive
prefix sum plus the original entry (at the `size_t` instantiation, with no
accumulator overflow). -/
theorem inclusive_eq_exclusive_add_original (arr : List Nat)
    (hsum : arr.sum < SIZE_T_MOD) :
    ∀ i, i < arr.length →
      (kk_inclusive_parallel_prefix_sum sizeTOps arr.length arr).getD i 0
        = (kk_exclusive_parallel_prefix_sum sizeTOps arr.length arr).getD i 0
          + arr.getD i 0 := by
  intro i hi
  have hincl := getD_InclusiveParallelPrefixSum_sizeT arr 0 i hi (by simpa using hsum)
  have hexcl := getD_ExclusiveParallelPrefixSum_sizeT arr 0 i hi (by simpa using hsum)
  simp only [kk_inclusive_parallel_prefix_sum, kk_exclusive_parallel_prefix_sum]
  rw [hincl, hexcl, Nat.zero_add, Nat.zero_add, sum_take_succ_getD arr i hi]

theorem inclusive_eq_exclusive_add_original_witness :
    (kk_inclusive_parallel_prefix_sum sizeTOps 4 [1, 2, 3, 4]).getD 2 0
      = (kk_exclusive_parallel_prefix_sum sizeTOps 4 [1, 2, 3, 4]).getD 2 0
        + [1, 2, 3, 4].getD 2 0 :=
  inclusive_eq_exclusive_add_original [1, 2, 3, 4] (by decide) 2 (by decide)

/-- C4: for a nonempty array, the sum reduction equals the last entry of
the inclusive prefix sum of (a copy of) the array, at the `size_t`
instantiation: both are the total sum mod `2 ^ 64`. -/
theorem reduce_eq_last_of_inclusive_scan (arr : List Nat) (h0 : 0 < arr.length) :
    kk_reduce_view sizeTAdd 0 arr.length arr
      = (kk_inclusive_parallel_prefix_sum sizeTOps arr.length arr).getD
          (arr.length - 1) 0 := by
  have hne : arr ≠ [] := List.length_pos.mp h0
  show (arr.take arr.length).foldl sizeTAdd 0
      = (InclusiveParallelPrefixSum sizeTOps arr.length arr 0).getD (arr.length - 1) 0
  rw [List.take_length, foldl_sizeTAdd arr 0 (by simp [SIZE_T_MOD]),
    getD_last_InclusiveParallelPrefixSum_sizeT arr 0 hne]

theorem reduce_eq_last_of_inclusive_scan_witness :
    kk_reduce_view sizeTAdd 0 4 [1, 2, 3, 4]
      = (kk_inclusive_parallel_prefix_sum sizeTOps 4 [1, 2, 3, 4]).getD 3 0 :=
  reduce_eq_last_of_inclusive_scan [1, 2, 3, 4] (by decide)

/-- C10: with an element count `n` not exceeding the array's length, both
scans keep the length, leave every entry at index `≥ n` unchanged, and
with `n = 0` leave the array entirely unchanged — for every value-type
instantiation of the functors. -/
theorem scan_frame_effect {T : Type} (ops : ViewOps T) (n : Nat) (arr : List T)
    (h : n ≤ arr.length) :
    (kk_exclusive_parallel_prefix_sum ops n arr).length = arr.length
    ∧ (kk_inclusive_parallel_prefix_sum ops n arr).length = arr.length
    ∧ (∀ j, n ≤ j →
        (kk_exclusive_parallel_prefix_sum ops n arr)[j]? = arr[j]?
        ∧ (kk_inclusive_parallel_prefix_sum ops n arr)[j]? = arr[j]?)
    ∧ kk_exclusive_parallel_prefix_sum ops 0 arr = arr
    ∧ kk_inclusive_parallel_prefix_sum ops 0 arr = arr :=
  ⟨length_ExclusiveParallelPrefixSum ops n arr 0 h,
   length_InclusiveParallelPrefixSum ops n arr 0 h,
   fun j hj =>
     ⟨getElem?_ExclusiveParallelPrefixSum ops n arr 0 j h hj,
      getElem?_InclusiveParallelPrefixSum ops n arr 0 j h hj⟩,
   rfl, rfl⟩

theorem scan_frame_effect_witness :
    (kk_exclusive_parallel_prefix_sum sizeTOps 1 [5, 6])[1]? = some 6 := by
  have h := ((scan_frame_effect sizeTOps 1 [5, 6] (by decide)).2.2.1 1 (by decide)).1
  exact h.trans (by decide)

/-! ### Helper lemmas: reductions and the equality check -/

lemma foldl_add_int : ∀ (l : List ℤ) (a : ℤ), l.foldl (fun x y => x + y) a = a + l.sum := by
  intro l
  induction l with
  | nil => intro a; simp
  | cons x rest ih =>
      intro a
      simp only [List.foldl_cons, List.sum_cons, ih]
      ring

lemma sum_zipWith_sub_int :
    ∀ (e b : List ℤ), e.length = b.length →
      (List.zipWith (fun x y => x - y) e b).sum = e.sum - b.sum := by
  intro e
  induction e with
  | nil =>
      intro b h
      cases b with
      | nil => simp
      | cons y bs => simp at h
  | cons x es ih =>
      intro b h
      cases b with
      | nil => simp at h
      | cons y bs =>
          simp only [List.zipWith_cons_cons, List.sum_cons, ih bs (by simpa using h)]
          ring

lemma IsIdenticalFunctor_eq_ite (eps : ℤ) (v1 v2 : List ℤ) (i acc : Nat) :
    IsIdenticalFunctor eps v1 v2 i acc
      = if eps < |v1.getD i 0 - v2.getD i 0| then acc + 1 else acc := rfl

lemma foldl_IsIdenticalFunctor (eps : ℤ) (v1 v2 : List ℤ) :
    ∀ (l : List Nat) (acc : Nat),
      l.foldl (fun acc i => IsIdenticalFunctor eps v1 v2 i acc) acc
        = acc + l.countP (fun i => decide (eps < |v1.getD i 0 - v2.getD i 0|)) := by
  intro l
  induction l with
  | nil => intro acc; simp
  | cons i rest ih =>
      intro acc
      rw [List.foldl_cons, ih, List.countP_cons, IsIdenticalFunctor_eq_ite]
      by_cases h : eps < |v1.getD i 0 - v2.getD i 0|
      · rw [if_pos h, if_pos (decide_eq_true h)]
        omega
      · rw [if_neg h, if_neg (by simpa using h)]
        omega

lemma isIdenticalReduce_eq_countP (eps : ℤ) (v1 v2 : List ℤ) (n : Nat) :
    isIdenticalReduce eps v1 v2 n
      = (List.range n).countP (fun i => decide (eps < |v1.getD i 0 - v2.getD i 0|)) := by
  show (List.range n).foldl (fun acc i => IsIdenticalFunctor eps v1 v2 i acc) 0
      = (List.range n).countP (fun i => decide (eps < |v1.getD i 0 - v2.getD i 0|))
  rw [foldl_IsIdenticalFunctor eps v1 v2 (List.range n) 0, Nat.zero_add]

lemma kk_is_identical_true_iff (v1 v2 : List ℤ) (eps : ℤ) :
    kk_is_identical_view v1 v2 eps = true
      ↔ v1.length = v2.length
        ∧ ∀ i, i < v1.length → |v1.getD i 0 - v2.getD i 0| ≤ eps := by
  by_cases hlen : v1.length = v2.length
  · have h1 : kk_is_identical_view v1 v2 eps
        = if isIdenticalReduce eps v1 v2 v1.length > 0 then false else true := by
      show (if v1.length ≠ v2.length then false
          else if isIdenticalReduce eps v1 v2 v1.length > 0 then false else true)
        = if isIdenticalReduce eps v1 v2 v1.length > 0 then false else true
      rw [if_neg (by simp [hlen])]
    rw [h1, isIdenticalReduce_eq_countP]
    constructor
    · intro h
      refine ⟨hlen, fun i hi => ?_⟩
      by_contra hgt
      push_neg at hgt
      have hpos : 0 < (List.range v1.length).countP
          (fun j => decide (eps < |v1.getD j 0 - v2.getD j 0|)) :=
        List.countP_pos_iff.mpr ⟨i, List.mem_range.mpr hi, by simpa using hgt⟩
      rw [if_pos hpos] at h
      exact absurd h (by simp)
    · intro h
      have hzero : (List.range v1.length).countP
          (fun j => decide (eps < |v1.getD j 0 - v2.getD j 0|)) = 0 := by
        apply List.countP_eq_zero.mpr
        intro j hmem
        simpa using not_lt.mpr (h.2 j (List.mem_range.mp hmem))
      rw [hzero]
      simp
  · constructor
    · intro h
      have hfalse : kk_is_identical_view v1 v2 eps = false := by
        show (if v1.length ≠ v2.length then false
            else if isIdenticalReduce eps v1 v2 v1.length > 0 then false else true)
          = false
        rw [if_pos hlen]
      rw [hfalse] at h
      exact absurd h (by simp)
    · intro h
      exact absurd h.1 hlen

/-! ### Claim theorems: reductions and the equality check -/

/-- C5: at an exact arithmetic value type (the integers), the diff
reduction is the sum of the elementwise differences `ends[i] - begins[i]`,
and it equals the sum reduction of `ends` minus the sum reduction of
`begins`. -/
theorem diff_reduce_eq_reduce_sub (begins ends : List ℤ)
    (h : begins.length = ends.length) :
    kk_reduce_diff_view (fun a b => a + b) (fun a b => a - b) 0
        ends.length begins ends
      = (List.zipWith (fun x y => x - y) ends begins).sum
    ∧ kk_reduce_diff_view (fun a b => a + b) (fun a b => a - b) 0
        ends.length begins ends
      = kk_reduce_view (fun a b => a + b) 0 ends.length ends
        - kk_reduce_view (fun a b => a + b) 0 begins.length begins := by
  have htakeE : ends.take ends.length = ends := List.take_length ends
  have htakeB : begins.take ends.length = begins := by
    rw [← h]
    exact List.take_length begins
  have hfirst : kk_reduce_diff_view (fun a b => a + b) (fun a b => a - b) 0
      ends.length begins ends
      = (List.zipWith (fun x y => x - y) ends begins).sum := by
    show (List.zipWith (fun x y => x - y) (ends.take ends.length)
        (begins.take ends.length)).foldl (fun a b => a + b) 0
      = (List.zipWith (fun x y => x - y) ends begins).sum
    rw [htakeE, htakeB, foldl_add_int, zero_add]
  refine ⟨hfirst, hfirst.trans ?_⟩
  rw [sum_zipWith_sub_int ends begins h.symm]
  show ends.sum - begins.sum
      = (ends.take ends.length).foldl (fun a b => a + b) 0
        - (begins.take begins.length).foldl (fun a b => a + b) 0
  rw [htakeE, List.take_length, foldl_add_int, foldl_add_int, zero_add, zero_add]

theorem diff_reduce_eq_reduce_sub_witness :
    kk_reduce_diff_view (fun a b => a + b) (fun a b => a - b) (0 : ℤ) 3
        [0, 2, 5] [2, 5, 9]
      = kk_reduce_view (fun a b => a + b) 0 3 [2, 5, 9]
        - kk_reduce_view (fun a b => a + b) 0 3 [0, 2, 5] :=
  (diff_reduce_eq_reduce_sub [0, 2, 5] [2, 5, 9] (by decide)).2

/-- C6: for a non-negative tolerance, the equality check returns true iff
the two arrays have equal length and every elementwise absolute difference
is at most `eps`. -/
theorem identical_iff_within_eps (v1 v2 : List ℤ) (eps : ℤ) (_heps : 0 ≤ eps) :
    kk_is_identical_view v1 v2 eps = true
      ↔ v1.length = v2.length
        ∧ ∀ i, i < v1.length → |v1.getD i 0 - v2.getD i 0| ≤ eps :=
  kk_is_identical_true_iff v1 v2 eps

theorem identical_iff_within_eps_witness :
    kk_is_identical_view [1, 3] [2, 3] 1 = true :=
  (identical_iff_within_eps [1, 3] [2, 3] 1 (by decide)).mpr (by decide)

/-- C7: when the two arrays have different lengths the check returns false
for every tolerance, and the issued parallel work (the index list handed
to the reduction functor) is empty. -/
theorem mismatched_lengths_false_no_work (v1 v2 : List ℤ) (eps : ℤ)
    (h : v1.length ≠ v2.length) :
    kk_is_identical_view v1 v2 eps = false
    ∧ kk_is_identical_view_trace v1 v2 eps = (false, []) := by
  constructor
  · simp [kk_is_identical_view, h]
  · simp [kk_is_identical_view_trace, h]

theorem mismatched_lengths_false_no_work_witness :
    kk_is_identical_view [0] [] 5 = false
    ∧ kk_is_identical_view_trace [0] [] 5 = (false, []) :=
  mismatched_lengths_false_no_work [0] [] 5 (by decide)

/-- C8: the equality check is monotonic in the tolerance — if it accepts
at `eps0` and `eps0 ≤ eps1`, it accepts at `eps1`. -/
theorem identical_monotone_in_eps (v1 v2 : List ℤ) (eps0 eps1 : ℤ)
    (h0 : kk_is_identical_view v1 v2 eps0 = true) (hle : eps0 ≤ eps1) :
    kk_is_identical_view v1 v2 eps1 = true := by
  rw [kk_is_identical_true_iff] at h0 ⊢
  exact ⟨h0.1, fun i hi => le_trans (h0.2 i hi) hle⟩

theorem identical_monotone_in_eps_witness :
    kk_is_identical_view [1] [3] 5 = true :=
  identical_monotone_in_eps [1] [3] 2 5 (by decide) (by decide)

/-- C9: for equal-length arrays, the counter accumulated by the equality
check's reduction equals the number of index positions whose elementwise
absolute difference exceeds the tolerance. -/
theorem mismatch_counter_counts (v1 v2 : List ℤ) (eps : ℤ)
    (_h : v1.length = v2.length) :
    isIdenticalReduce eps v1 v2 v1.length
      = (List.range v1.length).countP
          (fun i => decide (eps < |v1.getD i 0 - v2.getD i 0|)) :=
  isIdenticalReduce_eq_countP eps v1 v2 v1.length

theorem mismatch_counter_counts_witness :
    isIdenticalReduce 1 [1, 5, 9] [2, 9, 9] 3
      = (List.range 3).countP
          (fun i => decide ((1 : ℤ) < |[1, 5, 9].getD i 0 - [2, 9, 9].getD i 0|)) :=
  mismatch_counter_counts [1, 5, 9] [2, 9, 9] 1 (by decide)

/-! ### Counterexamples at a fractional value type -/

/-- C1 counterexample: at the `double` instantiation (exact rationals),
the exclusive scan of `[1.5, 2.5]` stores `1` at index 1 — the `size_t`
accumulator truncated `1.5` — not the sum `1.5` of the preceding original
entries, so the claim fails for that numeric value type. -/
theorem exclusive_scan_sums_counterexample :
    (kk_exclusive_parallel_prefix_sum doubleOps 2 [mkRat 3 2, mkRat 5 2]).getD 1 0
      ≠ ([mkRat 3 2, mkRat 5 2].take 1).sum := by
  have h1 : doubleOps.accum 0 (mkRat 3 2) = 1 := by
    show doubleToSize ((0 : ℚ) + mkRat 3 2) % SIZE_T_MOD = 1
    rw [zero_add]
    decide
  have hL : (kk_exclusive_parallel_prefix_sum doubleOps 2 [mkRat 3 2, mkRat 5 2]).getD 1 0
      = doubleOps.store 1 := by
    show doubleOps.store (doubleOps.accum 0 (mkRat 3 2)) = doubleOps.store 1
    rw [h1]
  have hR : ([mkRat 3 2, mkRat 5 2].take 1).sum = mkRat 3 2 := by simp
  rw [hL, hR]
  decide

/-- C3 counterexample: at the `double` instantiation, for the array
`[1.5]` the inclusive scan stores `1` at index 0 (truncating `size_t`
accumulator) while the exclusive scan entry plus the original entry is
`0 + 1.5 = 1.5`, so the claimed relation fails there. -/
theorem inclusive_vs_exclusive_counterexample :
    (kk_inclusive_parallel_prefix_sum doubleOps 1 [mkRat 3 2]).getD 0 0
      ≠ (kk_exclusive_parallel_prefix_sum doubleOps 1 [mkRat 3 2]).getD 0 0
        + [mkRat 3 2].getD 0 0 := by
  have h1 : doubleOps.accum 0 (mkRat 3 2) = 1 := by
    show doubleToSize ((0 : ℚ) + mkRat 3 2) % SIZE_T_MOD = 1
    rw [zero_add]
    decide
  have hL : (kk_inclusive_parallel_prefix_sum doubleOps 1 [mkRat 3 2]).getD 0 0
      = doubleOps.store 1 := by
    show doubleOps.store (doubleOps.accum 0 (mkRat 3 2)) = doubleOps.store 1
    rw [h1]
  have hR : (kk_exclusive_parallel_prefix_sum doubleOps 1 [mkRat 3 2]).getD 0 0
      + [mkRat 3 2].getD 0 0 = mkRat 3 2 := by
    show ((0 : Nat) : ℚ) + mkRat 3 2 = mkRat 3 2
    rw [Nat.cast_zero, zero_add]
  rw [hL, hR]
  decide

/-- C4 counterexample: at the `double` instantiation, for `[0.5, 2.5]`
the sum reduction — whose accumulator per `ReductionFunctor` IS the value
type — yields `3`, while the last entry of the inclusive scan, computed
through the truncating `size_t` accumulator, is `2`. -/
theorem reduce_vs_inclusive_counterexample :
    kk_reduce_view (fun a b => a + b) (0 : ℚ) 2 [mkRat 1 2, mkRat 5 2]
      ≠ (kk_inclusive_parallel_prefix_sum doubleOps 2 [mkRat 1 2, mkRat 5 2]).getD 1 0 := by
  have ha1 : doubleOps.accum 0 (mkRat 1 2) = 0 := by
    show doubleToSize ((0 : ℚ) + mkRat 1 2) % SIZE_T_MOD = 0
    rw [zero_add]
    decide
  have ha2 : doubleOps.accum 0 (mkRat 5 2) = 2 := by
    show doubleToSize ((0 : ℚ) + mkRat 5 2) % SIZE_T_MOD = 2
    rw [zero_add]
    decide
  have hL : kk_reduce_view (fun a b => a + b) (0 : ℚ) 2 [mkRat 1 2, mkRat 5 2] = 3 := by
    show ((0 : ℚ) + mkRat 1 2) + mkRat 5 2 = 3
    rw [zero_add, Rat.mkRat_eq_div, Rat.mkRat_eq_div]
    norm_num
  have hR : (kk_inclusive_parallel_prefix_sum doubleOps 2 [mkRat 1 2, mkRat 5 2]).getD 1 0
      = doubleOps.store 2 := by
    show doubleOps.store (doubleOps.accum (doubleOps.accum 0 (mkRat 1 2)) (mkRat 5 2))
      = doubleOps.store 2
    rw [ha1, ha2]
  rw [hL, hR]
  decide
